import Mathlib

/-!
Verification of the pydecode traceback-decoding core (`pydecode/core.py`,
`pydecode/utils.py`) against its natural-language specification.

Strings are modelled as `List Char` (ASCII fragment of Python `str`).
Python values passed to the public entry points are modelled by `PyVal`
(to capture the `isinstance`/truthiness input guards), and operations that
can raise a Python exception return `Except PyErr _`.

Regular-expression operations from the source are translated to
deterministic scanners.  Every regex used by the source is free of
essential backtracking (all adjacent character classes are disjoint), so
maximal-munch scanning is exactly the Python `re` behaviour; each scanner
carries a comment naming the regex it implements.
-/

set_option maxRecDepth 20000

namespace PyDecode

/-- The ASCII escape character `\x1B` that starts an ANSI escape sequence. -/
def escChar : Char := '\x1b'

/-- Python `str.strip()` / `\s` whitespace characters (ASCII fragment). -/
def isPySpace (c : Char) : Bool :=
  c = ' ' || c = '\t' || c = '\n' || c = '\r' || c = '\x0b' || c = '\x0c'

/-- Regex `\w` (ASCII fragment): letters, digits and underscore. -/
def isWordChar (c : Char) : Bool :=
  c.isAlpha || c.isDigit || c = '_'

/-- Second byte of a two-character ANSI escape: character class `[@-Z\\-_]`
of the source regex, i.e. `0x40`-`0x5A` or `0x5C`-`0x5F`. -/
def isTwoCharFinal (c : Char) : Bool :=
  ('@' ≤ c && c ≤ 'Z') || ('\\' ≤ c && c ≤ '_')

/-- CSI parameter byte: character class `[0-?]`, i.e. `0x30`-`0x3F`. -/
def isParamByte (c : Char) : Bool :=
  '0' ≤ c && c ≤ '?'

/-- CSI intermediate byte: the regex class from space to solidus,
i.e. `0x20`-`0x2F`. -/
def isInterByte (c : Char) : Bool :=
  ' ' ≤ c && c ≤ '/'

/-- CSI final byte: character class `[@-~]`, i.e. `0x40`-`0x7E`. -/
def isFinalByte (c : Char) : Bool :=
  '@' ≤ c && c ≤ '~'

/-- `startsWithL p l` : the list `l` starts with the pattern `p`. -/
def startsWithL : List Char → List Char → Bool
  | [], _ => true
  | _ :: _, [] => false
  | p :: ps, c :: cs => p = c && startsWithL ps cs

/-- `containsSub p l` : `p` occurs as a contiguous substring of `l`
(Python's `p in l` on strings). -/
def containsSub (pat : List Char) : List Char → Bool
  | [] => startsWithL pat []
  | c :: cs => startsWithL pat (c :: cs) || containsSub pat cs

/-- `endsWithL sfx l` : the list `l` ends with `sfx`. -/
def endsWithL (sfx l : List Char) : Bool :=
  startsWithL sfx.reverse l.reverse

/-- Python `text.split('\n')` (always returns at least one piece). -/
def splitNl : List Char → List (List Char)
  | [] => [[]]
  | c :: rest =>
    if c = '\n' then [] :: splitNl rest
    else
      match splitNl rest with
      | l :: ls => (c :: l) :: ls
      | [] => [[c]]

/-- Python `str.strip()`: remove leading and trailing whitespace. -/
def pyStrip (l : List Char) : List Char :=
  ((l.dropWhile isPySpace).reverse.dropWhile isPySpace).reverse

/-- Python `text.replace('\r\n', '\n')`: left-to-right non-overlapping
replacement of each `\r\n` pair by `\n`. -/
def replCRLF : List Char → List Char
  | [] => []
  | [c] => [c]
  | c :: d :: rest =>
    if c = '\r' ∧ d = '\n' then '\n' :: replCRLF rest
    else c :: replCRLF (d :: rest)

/-- Python `text.replace('\r', '\n')`. -/
def replCR : List Char → List Char
  | [] => []
  | c :: rest => (if c = '\r' then '\n' else c) :: replCR rest

mutual
/-- `re.sub(r'\n{3,}', '\n\n', text)`: each maximal run of three or more
newlines is replaced by exactly two.  `collapseNL` scans for a run of three
newlines; on finding one it emits two and hands the remainder of the run to
`collapseRun`. -/
def collapseNL : List Char → List Char
  | [] => []
  | [c] => [c]
  | [c, d] => [c, d]
  | c :: d :: e :: rest =>
    if c = '\n' ∧ d = '\n' ∧ e = '\n' then '\n' :: '\n' :: collapseRun rest
    else c :: collapseNL (d :: e :: rest)

/-- Consume the tail of a newline run already replaced by `\n\n`, then
resume normal scanning (a non-newline character cannot start a match, so
resuming after it is faithful to `re.sub`'s continuation after a match). -/
def collapseRun : List Char → List Char
  | [] => []
  | c :: rest =>
    if c = '\n' then collapseRun rest else c :: collapseNL rest
end

mutual
/-- `re.sub` with the source's ANSI escape pattern: `\x1B` followed either
by one two-character-final byte, or by `[`, then zero or more parameter
bytes, then zero or more intermediate bytes, then one final byte; every
match is deleted, scanning left to right.  A match can only start at
`\x1b`, so characters seen to be outside any match are emitted verbatim.
The alternation's two branches are disjoint on the character after `\x1b`
(`[` is `0x5B`, excluded from the two-character class), and in the CSI
branch the parameter, intermediate and final classes are pairwise
disjoint, so greedy maximal-munch is the exact `re` behaviour. -/
def ansiStrip : List Char → List Char
  | [] => []
  | c :: rest =>
    if c = escChar then ansiAfterEsc rest else c :: ansiStrip rest

/-- State after reading `\x1b`: resolve the regex attempt.  On failure the
escape character is emitted and scanning resumes at the next position. -/
def ansiAfterEsc : List Char → List Char
  | [] => [escChar]
  | d :: rest =>
    if isTwoCharFinal d then ansiStrip rest
    else if d = '[' then csiParams [] rest
    else if d = escChar then escChar :: ansiAfterEsc rest
    else escChar :: d :: ansiStrip rest

/-- State inside a CSI attempt (`\x1b[` already read), consuming parameter
bytes.  `acc` holds the consumed bytes in reverse for the failure case
(none of them can be `\x1b`, so on failure they are emitted verbatim and
scanning resumes at the offending character). -/
def csiParams (acc : List Char) : List Char → List Char
  | [] => escChar :: '[' :: acc.reverse
  | c :: rest =>
    if isParamByte c then csiParams (c :: acc) rest
    else if isInterByte c then csiInters (c :: acc) rest
    else if isFinalByte c then ansiStrip rest
    else if c = escChar then escChar :: '[' :: acc.reverse ++ ansiAfterEsc rest
    else escChar :: '[' :: acc.reverse ++ (c :: ansiStrip rest)

/-- State inside a CSI attempt, consuming intermediate bytes. -/
def csiInters (acc : List Char) : List Char → List Char
  | [] => escChar :: '[' :: acc.reverse
  | c :: rest =>
    if isInterByte c then csiInters (c :: acc) rest
    else if isFinalByte c then ansiStrip rest
    else if c = escChar then escChar :: '[' :: acc.reverse ++ ansiAfterEsc rest
    else escChar :: '[' :: acc.reverse ++ (c :: ansiStrip rest)
end

/-- `sanitize_traceback` (`utils.py`): return `""` on falsy input, else
strip ANSI escapes, normalize line endings, collapse 3+ blank lines, and
trim surrounding whitespace. -/
def sanitize_traceback (l : List Char) : List Char :=
  if l = [] then []
  else pyStrip (collapseNL (replCR (replCRLF (ansiStrip l))))

/-- The three-newline pattern whose absence characterizes collapsed text. -/
def tripleNL : List Char := ['\n', '\n', '\n']


/-! ## Field extractor (`utils.py`) -/

/-- Python exceptions that the embedded code can raise or let escape:
`indexError` models the `IndexError` from an out-of-range `[0]`,
`uncaught` models an exception propagating out of `safe_run` unchanged. -/
inductive PyErr
  | indexError
  | uncaught (tbText : List Char)
deriving DecidableEq, Repr

instance exceptDecEq {ε α : Type} [DecidableEq ε] [DecidableEq α] :
    DecidableEq (Except ε α) := fun x y =>
  match x, y with
  | .ok a, .ok b =>
    match decEq a b with
    | isTrue h => isTrue (h ▸ rfl)
    | isFalse h => isFalse (fun hc => h (Except.ok.inj hc))
  | .error a, .error b =>
    match decEq a b with
    | isTrue h => isTrue (h ▸ rfl)
    | isFalse h => isFalse (fun hc => h (Except.error.inj hc))
  | .ok _, .error _ => isFalse (fun hc => Except.noConfusion hc)
  | .error _, .ok _ => isFalse (fun hc => Except.noConfusion hc)

/-- Lines of `extract_error_type`/`extract_error_message`:
`[line.strip() for line in text.strip().split('\n') if line.strip()]`. -/
def strippedLines (s : List Char) : List (List Char) :=
  ((splitNl (pyStrip s)).map pyStrip).filter (fun l => !l.isEmpty)

/-- Maximal run of word characters and dots at the start of a line. -/
def wordDotRun (l : List Char) : List Char :=
  l.takeWhile (fun c => isWordChar c || c = '.')

/-- Python `text.split(sep)` for a one-character separator. -/
def splitSep (sep : Char) : List Char → List (List Char)
  | [] => [[]]
  | c :: rest =>
    if c = sep then [] :: splitSep sep rest
    else
      match splitSep sep rest with
      | l :: ls => (c :: l) :: ls
      | [] => [[c]]

/-- `re.search` of the anchored pattern "`^(` word chars, then zero or more
dot-separated word groups, then the literal suffix `sfx`, then `):`" used
by `extract_error_type` with `sfx` one of `Error`, `Exception`, `Warning`.
Word characters and dots cannot cross a `:`, so the group must be exactly
the maximal word-or-dot run from the start of the line, immediately
followed by `:`; that run matches the group shape iff its dot-separated
segments are all nonempty and its last segment strictly extends `sfx`. -/
def matchSuffixPat (sfx : List Char) (line : List Char) : Option (List Char) :=
  let p := wordDotRun line
  let rest := line.drop p.length
  let segs := splitSep '.' p
  if rest.head? == some ':'
      && segs.all (fun seg => !seg.isEmpty)
      && (match segs.getLast? with
          | some lastSeg => endsWithL sfx lastSeg && decide (sfx.length < lastSeg.length)
          | none => false)
  then some p else none

/-- The alternation of special control-flow exception names in the fourth
pattern of `extract_error_type`; listed in the source's order. -/
def specialNames : List (List Char) :=
  [("KeyboardInterrupt".toList), ("SystemExit".toList), ("GeneratorExit".toList),
    ("StopIteration".toList), ("StopAsyncIteration".toList)]

/-- `re.search` of the anchored alternation of the special names followed
by `:`.  No special name is a prefix of another, so testing the
alternatives in order is the regex behaviour. -/
def matchSpecialPat (line : List Char) : Option (List Char) :=
  specialNames.find? (fun n => startsWithL (n ++ [':']) line)

/-- `re.search` of the anchored fallback pattern "an upper-case letter,
then one or more word characters, then `:`". -/
def matchCapitalPat (line : List Char) : Option (List Char) :=
  match line with
  | c :: rest =>
    if 'A' ≤ c && c ≤ 'Z' then
      let w := rest.takeWhile isWordChar
      if !w.isEmpty && ((rest.dropWhile isWordChar).head? == some ':')
      then some (c :: w) else none
    else none
  | [] => none

/-- The final best-effort guess of `extract_error_type`:
`last_line.split(':')[0].split()[0] if ':' in last_line or ' ' in last_line
else last_line`, returned when its first character is upper-case.  When the
text before the first `:` is empty or all whitespace, `.split()` yields an
empty list and the `[0]` raises `IndexError`. -/
def fallbackFirstWord (last : List Char) : Except PyErr (Option (List Char)) :=
  if containsSub [':'] last || containsSub [' '] last then
    let pre := last.takeWhile (fun c => c != ':')
    let tok := (pre.dropWhile isPySpace).takeWhile (fun c => !isPySpace c)
    if tok.isEmpty then .error .indexError
    else
      match tok with
      | c :: _ => if 'A' ≤ c && c ≤ 'Z' then .ok (some tok) else .ok none
      | [] => .ok none
  else
    match last with
    | c :: _ => if 'A' ≤ c && c ≤ 'Z' then .ok (some last) else .ok none
    | [] => .ok none

/-- `extract_error_type` (`utils.py`) on a string argument: try the five
anchored patterns in order on the last non-blank line, then the
first-word fallback. -/
def extract_error_type_str (s : List Char) : Except PyErr (Option (List Char)) :=
  if s.isEmpty then .ok none
  else
    match (strippedLines s).getLast? with
    | none => .ok none
    | some last =>
      match matchSuffixPat ("Error".toList) last <|> matchSuffixPat ("Exception".toList) last
          <|> matchSuffixPat ("Warning".toList) last <|> matchSpecialPat last
          <|> matchCapitalPat last with
      | some t => .ok (some t)
      | none => fallbackFirstWord last

/-- `extract_error_message` (`utils.py`): the trimmed text after the first
`:` of the last non-blank line; absent when there is no `:` or the
remainder trims to nothing. -/
def extract_error_message_str (s : List Char) : Option (List Char) :=
  if s.isEmpty then none
  else
    match (strippedLines s).getLast? with
    | none => none
    | some last =>
      if containsSub [':'] last then
        let m := pyStrip ((last.dropWhile (fun c => c != ':')).tail)
        if m.isEmpty then none else some m
      else none

/-- Value of a nonempty run of decimal digits (Python `int(...)`). -/
def digitsToInt (ds : List Char) : Int :=
  ds.foldl (fun a c => 10 * a + ((c.toNat - '0'.toNat : Nat) : Int)) 0

/-- The part of `line\s+(\d+)` after the literal `line`: one or more
whitespace characters then one or more digits (the classes are disjoint,
so greedy matching is deterministic).  Returns the parsed number and the
remainder of the text after the digits. -/
def lineNumTail (l : List Char) : Option (Int × List Char) :=
  if (l.takeWhile isPySpace).isEmpty then none
  else
    let l1 := l.dropWhile isPySpace
    let ds := l1.takeWhile Char.isDigit
    if ds.isEmpty then none
    else some (digitsToInt ds, l1.dropWhile Char.isDigit)

/-- `re.findall(r'line\s+(\d+)', text)`: position-by-position scan; a
successful match is consumed whole (scanning resumes after its digits), a
failed attempt advances one position.  Fuel-driven recursion: every step
removes at least one character, so `length` fuel is always sufficient. -/
def lineFindAux : Nat → List Char → List Int
  | 0, _ => []
  | _ + 1, [] => []
  | f + 1, 'l' :: 'i' :: 'n' :: 'e' :: rest =>
    (match lineNumTail rest with
      | some (n, r) => n :: lineFindAux f r
      | none => lineFindAux f ('i' :: 'n' :: 'e' :: rest))
  | f + 1, _ :: rest => lineFindAux f rest

/-- All matches of `line\s+(\d+)` in text order. -/
def lineMatches (s : List Char) : List Int := lineFindAux s.length s

/-- `extract_line_number` (`utils.py`) on a string argument: the last
match of `line\s+(\d+)`, converted to an integer. -/
def extract_line_number_str (s : List Char) : Option Int :=
  if s.isEmpty then none else (lineMatches s).getLast?

/-- A quote character: the regex class of `"` and `'`. -/
def isQuoteChar (c : Char) : Bool := c = '"' || c = '\''

/-- The part of the file-name pattern after the literal `File`: one or
more whitespace characters, an opening quote (either kind), a nonempty run
of non-quote characters (the capture), and a closing quote (either kind).
Returns the capture and the remainder after the closing quote. -/
def fileNameTail (l : List Char) : Option (List Char × List Char) :=
  if (l.takeWhile isPySpace).isEmpty then none
  else
    match l.dropWhile isPySpace with
    | q :: l1 =>
      if isQuoteChar q then
        let body := l1.takeWhile (fun c => !isQuoteChar c)
        if body.isEmpty then none
        else
          match l1.dropWhile (fun c => !isQuoteChar c) with
          | q2 :: r => if isQuoteChar q2 then some (body, r) else none
          | [] => none
      else none
    | [] => none

/-- `re.findall` of the file-name pattern (`File`, whitespace, a quoted
nonempty name): position-by-position scan with whole-match consumption on
success, one-position advance on failure; fuel as in `lineFindAux`. -/
def fileFindAux : Nat → List Char → List (List Char)
  | 0, _ => []
  | _ + 1, [] => []
  | f + 1, 'F' :: 'i' :: 'l' :: 'e' :: rest =>
    (match fileNameTail rest with
      | some (cap, r) => cap :: fileFindAux f r
      | none => fileFindAux f ('i' :: 'l' :: 'e' :: rest))
  | f + 1, _ :: rest => fileFindAux f rest

/-- All captures of the file-name pattern in text order. -/
def fileMatches (s : List Char) : List (List Char) := fileFindAux s.length s

/-- `extract_file_name` (`utils.py`) on a string argument: the last
capture of the file-name pattern. -/
def extract_file_name_str (s : List Char) : Option (List Char) :=
  if s.isEmpty then none else (fileMatches s).getLast?

/-- One anchored attempt of the function-name pattern
"`in`, one or more whitespace, an identifier (`[a-zA-Z_][a-zA-Z0-9_]*`),
then only whitespace up to the end of the line". -/
def funcMatchAt (l : List Char) : Option (List Char) :=
  match l with
  | 'i' :: 'n' :: rest =>
    if (rest.takeWhile isPySpace).isEmpty then none
    else
      match rest.dropWhile isPySpace with
      | c :: l2 =>
        if c.isAlpha || c = '_' then
          if ((l2.dropWhile isWordChar).dropWhile isPySpace).isEmpty
          then some (c :: l2.takeWhile isWordChar)
          else none
        else none
      | [] => none
  | _ => none

/-- `re.search` of the function-name pattern: try each start position from
the left, first success wins. -/
def funcSearch : List Char → Option (List Char)
  | [] => none
  | c :: rest =>
    match funcMatchAt (c :: rest) with
    | some n => some n
    | none => funcSearch rest

/-- The reserved synthetic frame names excluded by
`extract_function_name`, in the source's order. -/
def synthFrameNames : List (List Char) :=
  [("<module>".toList), ("<lambda>".toList), ("<listcomp>".toList),
    ("<dictcomp>".toList), ("<setcomp>".toList)]

/-- The reversed-line scan of `extract_function_name`: the first line
containing both `File` and `in` is searched with `funcMatchAt`; a matched
identifier outside the synthetic names is returned, the module marker
would map to `main script`, and any other outcome moves to the next
line. -/
def extract_function_name_loop : List (List Char) → Option (List Char)
  | [] => none
  | line :: rest =>
    if containsSub ("File".toList) line && containsSub ("in".toList) line then
      match funcSearch (pyStrip line) with
      | some name =>
        if !(synthFrameNames.contains name) then some name
        else if name = ("<module>".toList) then some ("main script".toList)
        else extract_function_name_loop rest
      | none => extract_function_name_loop rest
    else extract_function_name_loop rest

/-- `extract_function_name` (`utils.py`) on a string argument. -/
def extract_function_name_str (s : List Char) : Option (List Char) :=
  if s.isEmpty then none
  else extract_function_name_loop (splitNl s).reverse


/-! ## Classifier, explanation lookup, decode orchestrator (`core.py`) -/

/-- Python values passed to the public entry points, as far as the input
guards distinguish them: `None`, a string, an integer, a boolean. -/
inductive PyVal
  | pynone
  | pystr (s : List Char)
  | pyint (n : Int)
  | pybool (b : Bool)
deriving DecidableEq, Repr

/-- Python truthiness of a `PyVal` (the `not x` part of the guards). -/
def pyTruthy : PyVal → Bool
  | .pynone => false
  | .pystr s => !s.isEmpty
  | .pyint n => n != 0
  | .pybool b => b

/-- `isinstance(x, str)`. -/
def isStrVal : PyVal → Bool
  | .pystr _ => true
  | _ => false

/-- `extract_error_type` on an arbitrary Python value: the guard returns
`None` for falsy or non-string input. -/
def extract_error_type (v : PyVal) : Except PyErr (Option (List Char)) :=
  match v with
  | .pystr s => extract_error_type_str s
  | _ => .ok none

/-- `extract_error_message` on an arbitrary Python value. -/
def extract_error_message (v : PyVal) : Option (List Char) :=
  match v with
  | .pystr s => extract_error_message_str s
  | _ => none

/-- `extract_line_number` on an arbitrary Python value. -/
def extract_line_number (v : PyVal) : Option Int :=
  match v with
  | .pystr s => extract_line_number_str s
  | _ => none

/-- `extract_file_name` on an arbitrary Python value. -/
def extract_file_name (v : PyVal) : Option (List Char) :=
  match v with
  | .pystr s => extract_file_name_str s
  | _ => none

/-- `extract_function_name` on an arbitrary Python value. -/
def extract_function_name (v : PyVal) : Option (List Char) :=
  match v with
  | .pystr s => extract_function_name_str s
  | _ => none

/-- The static category table of `categorize_error` (`utils.py`), in the
source's insertion order. -/
def categoriesTable : List (List Char × List (List Char)) :=
  [(("Syntax Errors".toList),
      [("SyntaxError".toList), ("IndentationError".toList), ("TabError".toList)]),
    (("Name Errors".toList),
      [("NameError".toList), ("UnboundLocalError".toList)]),
    (("Type Errors".toList),
      [("TypeError".toList)]),
    (("Value Errors".toList),
      [("ValueError".toList), ("UnicodeError".toList), ("UnicodeDecodeError".toList),
        ("UnicodeEncodeError".toList), ("UnicodeTranslateError".toList)]),
    (("Import Errors".toList),
      [("ImportError".toList), ("ModuleNotFoundError".toList)]),
    (("File Errors".toList),
      [("FileNotFoundError".toList), ("FileExistsError".toList), ("PermissionError".toList),
        ("IsADirectoryError".toList), ("NotADirectoryError".toList), ("OSError".toList),
        ("IOError".toList)]),
    (("Arithmetic Errors".toList),
      [("ZeroDivisionError".toList), ("OverflowError".toList), ("FloatingPointError".toList)]),
    (("Index Errors".toList),
      [("IndexError".toList), ("KeyError".toList), ("LookupError".toList)]),
    (("Attribute Errors".toList),
      [("AttributeError".toList)]),
    (("Runtime Errors".toList),
      [("RuntimeError".toList), ("RecursionError".toList), ("NotImplementedError".toList)]),
    (("System Errors".toList),
      [("SystemError".toList), ("MemoryError".toList), ("SystemExit".toList),
        ("KeyboardInterrupt".toList), ("GeneratorExit".toList)]),
    (("Assertion Errors".toList),
      [("AssertionError".toList)])]

/-- `categorize_error` (`utils.py`): `Unknown` for a falsy argument, else
the first category whose list contains the type, else `Other`. -/
def categorize_error (error_type : Option (List Char)) : List Char :=
  match error_type with
  | none => ("Unknown".toList)
  | some s =>
    if s.isEmpty then ("Unknown".toList)
    else
      match categoriesTable.find? (fun p => p.2.contains s) with
      | some p => p.1
      | none => ("Other".toList)

/-- An explanation record of the static mapping table. -/
structure ExceptionMapping where
  simple_explanation : List Char
  fix_suggestion : List Char
  tags : List (List Char)
  emoji : List Char
deriving DecidableEq, Repr

/-- Modelled from the spec: `pydecode/mapping.py` is not under `src/`.
The distinguished fallback record returned for any unmapped type; per the
spec it satisfies the same non-emptiness contract as named records. -/
def unknownMapping : ExceptionMapping :=
  { simple_explanation :=
      ("An unrecognized error occurred. Read the error message carefully for clues.".toList)
    fix_suggestion :=
      ("Search for the error type and message online for guidance.".toList)
    tags := [("unknown".toList)]
    emoji := ("❓".toList) }

/-- Modelled from the spec: `pydecode/mapping.py` is not under `src/`.
`get_exception_mapping` is an exact-match lookup in a static table keyed by
error-type string, returning the fallback record on a miss; only a
representative entry is modelled since no verified claim inspects the
table's contents. -/
def get_exception_mapping (k : List Char) : ExceptionMapping :=
  if k = ("ZeroDivisionError".toList) then
    { simple_explanation :=
        ("You tried to divide a number by zero, which is not allowed.".toList)
      fix_suggestion :=
        ("Make sure the denominator is never zero before dividing.".toList)
      tags := [("arithmetic".toList), ("division".toList)]
      emoji := ("🚫".toList) }
  else unknownMapping

/-- Modelled from the spec: `pydecode/_version.py` is not under `src/`.
The branding footer string attached when `add_branding` is true. -/
def brandingStr : List Char := ("⚡ Powered by pyDecode".toList)

/-- `truncate_long_message` (`utils.py`). -/
def truncate_long_message (message : List Char) (max_length : Nat) : List Char :=
  if message.isEmpty || message.length ≤ max_length then message
  else message.take (max_length - 3) ++ ("...".toList)

/-- Python `x or d` for an optional string `x`. -/
def pyOrElse (o : Option (List Char)) (d : List Char) : List Char :=
  match o with
  | some t => if t.isEmpty then d else t
  | none => d

/-- The record built by `parse_syntax_error_details` (`utils.py`). -/
structure SyntaxDetails where
  has_caret : Bool
  caret_position : Option Nat
  problematic_line : Option (List Char)
deriving DecidableEq, Repr

/-- The enumerate loop of `parse_syntax_error_details`: find the first
line at index above zero containing a caret; record the caret's offset and
the previous line's trimmed text.  `prev` is the line before the current
head. -/
def caretLoop (prev : List Char) : List (List Char) → SyntaxDetails
  | [] => { has_caret := false, caret_position := none, problematic_line := none }
  | line :: rest =>
    if containsSub ['^'] line then
      { has_caret := true
        caret_position := some (line.takeWhile (fun c => c != '^')).length
        problematic_line := some (pyStrip prev) }
    else caretLoop line rest

/-- `parse_syntax_error_details` (`utils.py`): the first line of the split
is skipped by the `i > 0` condition. -/
def parse_syntax_error_details (s : List Char) : SyntaxDetails :=
  match splitNl s with
  | [] => { has_caret := false, caret_position := none, problematic_line := none }
  | first :: rest => caretLoop first rest

/-- The three syntax-class error names of `is_syntax_error` (`utils.py`). -/
def syntaxErrorNames : List (List Char) :=
  [("SyntaxError".toList), ("IndentationError".toList), ("TabError".toList)]

/-- `is_syntax_error` (`utils.py`): re-extracts the error type and tests
membership in the syntax-class names (false for an absent type). -/
def is_syntax_error_str (s : List Char) : Except PyErr Bool := do
  let et ← extract_error_type_str s
  match et with
  | some t => pure (!t.isEmpty && syntaxErrorNames.contains t)
  | none => pure false

/-- The decoded-result dictionary built by `decode_traceback`
(`core.py`); `syntax_details` is `none` when the key is not added. -/
structure DecodeResult where
  error_type : List Char
  original_message : List Char
  simple_explanation : List Char
  fix_suggestion : List Char
  line_number : Option Int
  file_name : Option (List Char)
  function_name : Option (List Char)
  tags : List (List Char)
  category : List Char
  emoji : List Char
  branding : Option (List Char)
  success : Bool
  raw_traceback : List Char
  syntax_details : Option SyntaxDetails
deriving DecidableEq, Repr

/-- The fixed invalid-input result of `decode_traceback` (`core.py`). -/
def invalidInputResult (add_branding : Bool) : DecodeResult :=
  { error_type := ("InvalidInput".toList)
    original_message := ("No traceback provided".toList)
    simple_explanation :=
      ("pyDecode needs a valid error traceback to decode. Please provide error text.".toList)
    fix_suggestion :=
      ("Make sure you are passing a Python error message to decode_traceback().".toList)
    line_number := none
    file_name := none
    function_name := none
    tags := [("invalid_input".toList)]
    category := ("Input Error".toList)
    emoji := ("⚠️".toList)
    branding := if add_branding then some brandingStr else none
    success := false
    raw_traceback := []
    syntax_details := none }

/-- `decode_traceback` (`core.py`): input guard, sanitize, the five
extractions, mapping lookup, result assembly, optional syntax details. -/
def decode_traceback (v : PyVal) (add_branding : Bool) : Except PyErr DecodeResult :=
  if !pyTruthy v || !isStrVal v then .ok (invalidInputResult add_branding)
  else
    match v with
    | .pystr s => do
      let clean := sanitize_traceback s
      let error_type ← extract_error_type_str clean
      let error_message := extract_error_message_str clean
      let line_number := extract_line_number_str clean
      let file_name := extract_file_name_str clean
      let function_name := extract_function_name_str clean
      let mapping := get_exception_mapping (pyOrElse error_type ("__unknown__".toList))
      let issyn ← is_syntax_error_str clean
      pure
        { error_type := pyOrElse error_type ("UnknownError".toList)
          original_message :=
            truncate_long_message (pyOrElse error_message ("No message provided".toList)) 200
          simple_explanation := mapping.simple_explanation
          fix_suggestion := mapping.fix_suggestion
          line_number := line_number
          file_name := file_name
          function_name := function_name
          tags := mapping.tags
          category := categorize_error error_type
          emoji := mapping.emoji
          branding := if add_branding then some brandingStr else none
          success := false
          raw_traceback := clean
          syntax_details :=
            if issyn then some (parse_syntax_error_details clean) else none }
    | _ => .ok (invalidInputResult add_branding)

/-! ## `safe_run` (`core.py`) -/

/-- The outcome of the `try` block of `safe_run` (compile plus `exec` with
stdout captured), treated as an oracle for the external executor: either
clean completion with the captured output and the namespace's optional
`result` binding, or a raised fault with the output produced before it,
a flag telling whether the fault is `Exception`-class (AND therefore
caught by `except Exception`), and its rendered traceback text. -/
inductive ExecOutcome
  | completed (output : List Char) (resultBinding : Option PyVal)
  | raised (output : List Char) (isExceptionClass : Bool) (tbText : List Char)
deriving DecidableEq, Repr

/-- The dictionary returned by `safe_run`: the success shape, or the
error shape (all `decode_traceback` fields plus the captured output). -/
inductive SafeRunResult
  | completed (output : List Char) (result : Option PyVal)
      (branding : Option (List Char)) (message : List Char)
  | failed (decoded : DecodeResult) (output : List Char)
deriving DecidableEq, Repr

/-- The fixed invalid-input dictionary of `safe_run` (`core.py`); it has
the error shape with an empty captured output. -/
def safeRunInvalid (add_branding : Bool) : DecodeResult :=
  { error_type := ("InvalidInput".toList)
    original_message := ("No code provided".toList)
    simple_explanation :=
      ("pyDecode needs valid Python code to run. Please provide a code string.".toList)
    fix_suggestion := ("Pass a string containing Python code to safe_run().".toList)
    line_number := none
    file_name := none
    function_name := none
    tags := [("invalid_input".toList)]
    category := ("Input Error".toList)
    emoji := ("⚠️".toList)
    branding := if add_branding then some brandingStr else none
    success := false
    raw_traceback := []
    syntax_details := none }

/-- `safe_run` (`core.py`): input guard, then the `try` block.  On clean
completion the success dictionary is returned.  On an `Exception`-class
fault the handler decodes the rendered traceback and attaches the captured
output; an exception raised inside the handler itself (decoding can raise
`IndexError`) propagates, as does any fault that is not `Exception`-class
(`except Exception` does not catch `SystemExit`, `KeyboardInterrupt` or
`GeneratorExit`). -/
def safe_run (code : PyVal) (outcome : ExecOutcome) (add_branding : Bool) :
    Except PyErr SafeRunResult :=
  if !pyTruthy code || !isStrVal code then
    .ok (.failed (safeRunInvalid add_branding) [])
  else
    match outcome with
    | .completed out res =>
      .ok (.completed out res (if add_branding then some brandingStr else none)
        ("Code executed successfully! ✅".toList))
    | .raised out true tb =>
      match decode_traceback (.pystr tb) add_branding with
      | .ok d => .ok (.failed d out)
      | .error e => .error e
    | .raised _ false tb => .error (.uncaught tb)

/-! ## Concrete inputs and helpers used by the theorems -/

/-- The decoded result carried by an `ok` outcome (defaulting to the
invalid-input record, which no theorem relies on). -/
def okValueD (e : Except PyErr DecodeResult) : DecodeResult :=
  match e with
  | .ok r => r
  | .error _ => invalidInputResult true

/-- Round-trip scenario 1: a traceback ending in the zero-division error
line, preceded by the `calc.py` frame line. -/
def zeroDivText : List Char :=
  ("Traceback (most recent call last):\n  File \"calc.py\", line 10, in divide\n    result = a / b\nZeroDivisionError: division by zero".toList)

/-- A rendered traceback whose final line starts with `:` (produced, for
example, by `raise ValueError(chr(10) + chr(58))`, whose message spans two
lines): decoding it raises `IndexError` in the first-word fallback. -/
def colonTailTb : List Char :=
  ("Traceback (most recent call last):\n  File \"<string>\", line 1, in <module>\nValueError: \n:".toList)

/-- The ANSI-escape counterexample to sanitizer idempotence: deleting the
inner two-character escape glues the leading `\x1b` to the following `A`,
creating a new escape that only a second pass removes. -/
def ansiCounterexample : List Char := [escChar, escChar, 'A', 'A']

/-! ## Theorems -/

theorem containsSub_nil_pat (l : List Char) : containsSub [] l = true := by
  cases l <;> simp [containsSub, startsWithL]

theorem startsWithL_append (p a b : List Char) (h : startsWithL p a = true) :
    startsWithL p (a ++ b) = true := by
  induction p generalizing a with
  | nil => simp [startsWithL]
  | cons x ps ih =>
    cases a with
    | nil => simp [startsWithL] at h
    | cons c cs =>
      rw [List.cons_append]
      rw [startsWithL] at h ⊢
      rcases (Bool.and_eq_true _ _).mp h with ⟨h1, h2⟩
      rw [h1, ih cs h2]
      rfl

theorem containsSub_append_left (p a b : List Char) (h : containsSub p a = true) :
    containsSub p (a ++ b) = true := by
  induction a with
  | nil =>
    rw [containsSub] at h
    cases p with
    | nil => exact containsSub_nil_pat b
    | cons x ps => simp [startsWithL] at h
  | cons c cs ih =>
    rw [List.cons_append, containsSub]
    rw [containsSub] at h
    rcases (Bool.or_eq_true _ _).mp h with h | h
    · rw [← List.cons_append, startsWithL_append _ _ b h]
      rfl
    · rw [ih h, Bool.or_true]

theorem containsSub_append_right (p a b : List Char) (h : containsSub p b = true) :
    containsSub p (a ++ b) = true := by
  induction a with
  | nil => simpa using h
  | cons c cs ih =>
    rw [List.cons_append, containsSub, ih, Bool.or_true]

theorem containsSub_of_dropWhile (q : Char → Bool) (p l : List Char)
    (h : containsSub p (l.dropWhile q) = true) : containsSub p l = true := by
  induction l with
  | nil => simpa using h
  | cons c cs ih =>
    rw [List.dropWhile_cons] at h
    by_cases hq : q c = true
    · rw [if_pos hq] at h
      rw [containsSub, ih h, Bool.or_true]
    · rw [if_neg hq] at h
      exact h

theorem containsSub_of_pyStrip (p l : List Char)
    (h : containsSub p (pyStrip l) = true) : containsSub p l = true := by
  unfold pyStrip at h
  apply containsSub_of_dropWhile isPySpace
  set d := l.dropWhile isPySpace with hd
  have hsplit : (d.reverse.dropWhile isPySpace).reverse
      ++ (d.reverse.takeWhile isPySpace).reverse = d := by
    rw [← List.reverse_append, List.takeWhile_append_dropWhile, List.reverse_reverse]
  rw [← hsplit]
  exact containsSub_append_left _ _ _ h

theorem mem_pyStrip (a : Char) (l : List Char) (h : a ∈ pyStrip l) : a ∈ l := by
  unfold pyStrip at h
  rw [List.mem_reverse] at h
  have h1 := (List.dropWhile_sublist _).mem h
  rw [List.mem_reverse] at h1
  exact (List.dropWhile_sublist _).mem h1

theorem ansiStrip_of_no_esc (l : List Char) (h : escChar ∉ l) : ansiStrip l = l := by
  induction l with
  | nil => rfl
  | cons c cs ih =>
    have hc : ¬ c = escChar := fun hc => h (hc ▸ List.mem_cons_self c cs)
    rw [ansiStrip, if_neg hc, ih (fun hm => h (List.mem_cons_of_mem c hm))]

theorem mem_replCRLF (a : Char) (l : List Char) (h : a ∈ replCRLF l) :
    a ∈ l ∨ a = '\n' := by
  induction l using replCRLF.induct with
  | case1 => simp [replCRLF] at h
  | case2 c => simp [replCRLF] at h; simp [h]
  | case3 c d rest hcd ih =>
    rw [replCRLF, if_pos hcd] at h
    rcases List.mem_cons.mp h with h | h
    · exact Or.inr h
    · rcases ih h with h | h
      · exact Or.inl (by simp [h])
      · exact Or.inr h
  | case4 c d rest hcd ih =>
    rw [replCRLF, if_neg hcd] at h
    rcases List.mem_cons.mp h with h | h
    · exact Or.inl (by simp [h])
    · rcases ih h with h | h
      · exact Or.inl (List.mem_cons_of_mem c h)
      · exact Or.inr h

theorem replCRLF_of_no_cr (l : List Char) (h : '\r' ∉ l) : replCRLF l = l := by
  induction l using replCRLF.induct with
  | case1 => rfl
  | case2 c => rfl
  | case3 c d rest hcd ih =>
    exact absurd (hcd.1 ▸ List.mem_cons_self c (d :: rest)) h
  | case4 c d rest hcd ih =>
    rw [replCRLF, if_neg hcd, ih (fun hm => h (List.mem_cons_of_mem c hm))]

theorem no_cr_replCR (l : List Char) : '\r' ∉ replCR l := by
  induction l with
  | nil => simp [replCR]
  | cons c cs ih =>
    rw [replCR]
    intro hm
    rcases List.mem_cons.mp hm with hm | hm
    · by_cases hc : c = '\r'
      · rw [if_pos hc] at hm; exact absurd hm (by decide)
      · rw [if_neg hc] at hm; exact hc hm.symm
    · exact ih hm

theorem replCR_of_no_cr (l : List Char) (h : '\r' ∉ l) : replCR l = l := by
  induction l with
  | nil => rfl
  | cons c cs ih =>
    have hc : ¬ c = '\r' := fun hc => h (hc ▸ List.mem_cons_self c cs)
    rw [replCR, if_neg hc, ih (fun hm => h (List.mem_cons_of_mem c hm))]

theorem mem_replCR (a : Char) (l : List Char) (h : a ∈ replCR l) :
    a ∈ l ∨ a = '\n' := by
  induction l with
  | nil => simp [replCR] at h
  | cons c cs ih =>
    rw [replCR] at h
    rcases List.mem_cons.mp h with h | h
    · by_cases hc : c = '\r'
      · rw [if_pos hc] at h; exact Or.inr h
      · rw [if_neg hc] at h; exact Or.inl (by simp [h])
    · rcases ih h with h | h
      · exact Or.inl (List.mem_cons_of_mem c h)
      · exact Or.inr h

theorem dropWhile_head_false (q : Char → Bool) (l : List Char) (a : Char)
    (h : (l.dropWhile q).head? = some a) : q a = false := by
  induction l with
  | nil => simp at h
  | cons c cs ih =>
    rw [List.dropWhile_cons] at h
    by_cases hq : q c = true
    · rw [if_pos hq] at h
      exact ih h
    · rw [if_neg hq] at h
      rw [List.head?_cons, Option.some.injEq] at h
      rw [← h]
      simpa using hq

theorem dropWhile_self (q : Char → Bool) (l : List Char)
    (h : ∀ a, l.head? = some a → q a = false) : l.dropWhile q = l := by
  cases l with
  | nil => rfl
  | cons c cs =>
    rw [List.dropWhile_cons, if_neg (by rw [h c rfl]; simp)]

theorem dropWhile_dropWhile (q : Char → Bool) (l : List Char) :
    (l.dropWhile q).dropWhile q = l.dropWhile q :=
  dropWhile_self q _ (fun a ha => dropWhile_head_false q l a ha)

theorem pyStrip_pyStrip (l : List Char) : pyStrip (pyStrip l) = pyStrip l := by
  unfold pyStrip
  set m := l.dropWhile isPySpace with hm
  set r := (m.reverse.dropWhile isPySpace).reverse with hr
  have hsplit : r ++ (m.reverse.takeWhile isPySpace).reverse = m := by
    rw [hr, ← List.reverse_append, List.takeWhile_append_dropWhile, List.reverse_reverse]
  have hhead : ∀ a, r.head? = some a → isPySpace a = false := by
    intro a ha
    have hm' : m.head? = some a := by
      rcases hre : r with _ | ⟨x, xs⟩
      · rw [hre] at ha; simp at ha
      · rw [hre, List.head?_cons, Option.some.injEq] at ha
        rw [← hsplit, hre, List.cons_append, List.head?_cons, ha]
    exact dropWhile_head_false isPySpace l a (by rw [hm] at hm'; exact hm')
  have h1 : r.dropWhile isPySpace = r := dropWhile_self isPySpace r hhead
  rw [h1, hr, List.reverse_reverse, dropWhile_dropWhile]

theorem collapse_mem : ∀ (n : Nat) (l : List Char), l.length ≤ n →
    (∀ a, a ∈ collapseNL l → a ∈ l ∨ a = '\n')
    ∧ (∀ a, a ∈ collapseRun l → a ∈ l ∨ a = '\n') := by
  intro n
  induction n with
  | zero =>
    intro l hl
    have hnil : l = [] := List.eq_nil_of_length_eq_zero (Nat.le_zero.mp hl)
    subst hnil
    constructor <;> intro a ha <;> simp [collapseNL, collapseRun] at ha
  | succ n ih =>
    intro l hl
    constructor
    · intro a ha
      rcases l with _ | ⟨c, _ | ⟨d, _ | ⟨e, rest⟩⟩⟩
      · simp [collapseNL] at ha
      · exact Or.inl (by rw [show collapseNL [c] = [c] from rfl] at ha; exact ha)
      · exact Or.inl (by rw [show collapseNL [c, d] = [c, d] from rfl] at ha; exact ha)
      · by_cases htr : c = '\n' ∧ d = '\n' ∧ e = '\n'
        · rw [collapseNL, if_pos htr] at ha
          rcases List.mem_cons.mp ha with h | ha
          · exact Or.inr h
          rcases List.mem_cons.mp ha with h | ha
          · exact Or.inr h
          have hrest : rest.length ≤ n := by simp at hl; omega
          rcases (ih rest hrest).2 a ha with h | h
          · exact Or.inl (by simp [h])
          · exact Or.inr h
        · rw [collapseNL, if_neg htr] at ha
          rcases List.mem_cons.mp ha with h | ha
          · exact Or.inl (by simp [h])
          have hrest : (d :: e :: rest).length ≤ n := by simp at hl ⊢; omega
          rcases (ih _ hrest).1 a ha with h | h
          · exact Or.inl (List.mem_cons_of_mem c h)
          · exact Or.inr h
    · intro a ha
      rcases l with _ | ⟨c, rest⟩
      · simp [collapseRun] at ha
      · have hrest : rest.length ≤ n := by simp at hl; omega
        by_cases hc : c = '\n'
        · rw [collapseRun, if_pos hc] at ha
          rcases (ih rest hrest).2 a ha with h | h
          · exact Or.inl (List.mem_cons_of_mem c h)
          · exact Or.inr h
        · rw [collapseRun, if_neg hc] at ha
          rcases List.mem_cons.mp ha with h | ha
          · exact Or.inl (by simp [h])
          rcases (ih rest hrest).1 a ha with h | h
          · exact Or.inl (List.mem_cons_of_mem c h)
          · exact Or.inr h

theorem collapse_head : ∀ (n : Nat) (l : List Char), l.length ≤ n →
    ((collapseNL l).head? = l.head?)
    ∧ (∀ a, (collapseRun l).head? = some a → ¬ a = '\n') := by
  intro n
  induction n with
  | zero =>
    intro l hl
    have hnil : l = [] := List.eq_nil_of_length_eq_zero (Nat.le_zero.mp hl)
    subst hnil
    exact ⟨rfl, fun a ha => by simp [collapseRun] at ha⟩
  | succ n ih =>
    intro l hl
    constructor
    · rcases l with _ | ⟨c, _ | ⟨d, _ | ⟨e, rest⟩⟩⟩
      · rfl
      · rfl
      · rfl
      · by_cases htr : c = '\n' ∧ d = '\n' ∧ e = '\n'
        · rw [collapseNL, if_pos htr, List.head?_cons, List.head?_cons, htr.1]
        · rw [collapseNL, if_neg htr]
          rfl
    · intro a ha
      rcases l with _ | ⟨c, rest⟩
      · simp [collapseRun] at ha
      · have hrest : rest.length ≤ n := by simp at hl; omega
        by_cases hc : c = '\n'
        · rw [collapseRun, if_pos hc] at ha
          exact (ih rest hrest).2 a ha
        · rw [collapseRun, if_neg hc, List.head?_cons, Option.some.injEq] at ha
          rw [← ha]
          exact hc

theorem collapse_no_triple : ∀ (n : Nat) (l : List Char), l.length ≤ n →
    containsSub tripleNL (collapseNL l) = false
    ∧ containsSub tripleNL (collapseRun l) = false := by
  intro n
  induction n with
  | zero =>
    intro l hl
    have hnil : l = [] := List.eq_nil_of_length_eq_zero (Nat.le_zero.mp hl)
    subst hnil
    exact ⟨by decide, by decide⟩
  | succ n ih =>
    intro l hl
    constructor
    · rcases l with _ | ⟨c, _ | ⟨d, _ | ⟨e, rest⟩⟩⟩
      · decide
      · rw [show collapseNL [c] = [c] from rfl]
        simp [containsSub, startsWithL, tripleNL]
      · rw [show collapseNL [c, d] = [c, d] from rfl]
        simp [containsSub, startsWithL, tripleNL]
      · have hrest : rest.length ≤ n := by simp at hl; omega
        by_cases htr : c = '\n' ∧ d = '\n' ∧ e = '\n'
        · rw [collapseNL, if_pos htr]
          have hK := (ih rest hrest).2
          rcases hKe : collapseRun rest with _ | ⟨x, xs⟩
          · decide
          · have hx : ¬ x = '\n' :=
              (collapse_head rest.length rest le_rfl).2 x (by rw [hKe]; rfl)
            have hx' : ('\n' = x) = False := eq_false (fun hh => hx hh.symm)
            rw [hKe] at hK
            rw [containsSub, containsSub, hK]
            simp [startsWithL, tripleNL, hx']
        · rw [collapseNL, if_neg htr]
          have hrest3 : (d :: e :: rest).length ≤ n := by simp at hl ⊢; omega
          have hK := (ih _ hrest3).1
          rw [containsSub, hK, Bool.or_false]
          by_cases hc : c = '\n'
          · subst hc
            have hKhead : (collapseNL (d :: e :: rest)).head? = some d :=
              (collapse_head (d :: e :: rest).length _ le_rfl).1
            by_cases hd : d = '\n'
            · subst hd
              have he : ¬ e = '\n' := by
                intro he
                exact htr ⟨rfl, rfl, he⟩
              have he' : ('\n' = e) = False := eq_false (fun hh => he hh.symm)
              rcases rest with _ | ⟨f, rest2⟩
              · rw [show collapseNL ['\n', e] = ['\n', e] from rfl]
                simp [startsWithL, tripleNL, he']
              · have htr2 : ¬ ('\n' = '\n' ∧ e = '\n' ∧ f = '\n') := by
                  intro hh
                  exact he hh.2.1
                rw [collapseNL, if_neg htr2]
                have hKh2 : (collapseNL (e :: f :: rest2)).head? = some e :=
                  (collapse_head (e :: f :: rest2).length _ le_rfl).1
                rcases hK2 : collapseNL (e :: f :: rest2) with _ | ⟨y, ys⟩
                · simp [startsWithL, tripleNL]
                · have hy : y = e := by
                    rw [hK2, List.head?_cons, Option.some.injEq] at hKh2
                    exact hKh2
                  subst hy
                  simp [startsWithL, tripleNL, he']
            · have hd' : ('\n' = d) = False := eq_false (fun hh => hd hh.symm)
              rcases hK2 : collapseNL (d :: e :: rest) with _ | ⟨y, ys⟩
              · simp [startsWithL, tripleNL]
              · have hy : y = d := by
                  rw [hK2, List.head?_cons, Option.some.injEq] at hKhead
                  exact hKhead
                subst hy
                simp [startsWithL, tripleNL, hd']
          · have hc' : ('\n' = c) = False := eq_false (fun hh => hc hh.symm)
            simp [startsWithL, tripleNL, hc']
    · rcases l with _ | ⟨c, rest⟩
      · decide
      · have hrest : rest.length ≤ n := by simp at hl; omega
        by_cases hc : c = '\n'
        · rw [collapseRun, if_pos hc]
          exact (ih rest hrest).2
        · rw [collapseRun, if_neg hc]
          have hK := (ih rest hrest).1
          have hc' : ('\n' = c) = False := eq_false (fun hh => hc hh.symm)
          rw [containsSub, hK, Bool.or_false]
          simp [startsWithL, tripleNL, hc']

theorem collapseNL_id : ∀ (n : Nat) (l : List Char), l.length ≤ n →
    containsSub tripleNL l = false → collapseNL l = l := by
  intro n
  induction n with
  | zero =>
    intro l hl _
    have hnil : l = [] := List.eq_nil_of_length_eq_zero (Nat.le_zero.mp hl)
    subst hnil
    rfl
  | succ n ih =>
    intro l hl hcon
    rcases l with _ | ⟨c, _ | ⟨d, _ | ⟨e, rest⟩⟩⟩
    · rfl
    · rfl
    · rfl
    · by_cases htr : c = '\n' ∧ d = '\n' ∧ e = '\n'
      · exfalso
        obtain ⟨h1, h2, h3⟩ := htr
        subst h1; subst h2; subst h3
        simp [containsSub, startsWithL, tripleNL] at hcon
      · rw [collapseNL, if_neg htr]
        have hrest3 : (d :: e :: rest).length ≤ n := by simp at hl ⊢; omega
        have hcon2 : containsSub tripleNL (d :: e :: rest) = false := by
          rw [containsSub] at hcon
          exact (Bool.or_eq_false_iff.mp hcon).2
        rw [ih _ hrest3 hcon2]

/-- C3 (amended): the sanitizer is idempotent on every string containing
no ESC character.  (It is not idempotent in general: deleting an ANSI
escape can glue a preceding `\x1b` to a following final byte, creating a
new escape that only a second pass removes.) -/
theorem sanitize_idempotent_of_no_esc (s : List Char) (h : escChar ∉ s) :
    sanitize_traceback (sanitize_traceback s) = sanitize_traceback s := by
  by_cases hs : s = []
  · subst hs; rfl
  · have htv : sanitize_traceback s
        = pyStrip (collapseNL (replCR (replCRLF s))) := by
      rw [sanitize_traceback, if_neg hs, ansiStrip_of_no_esc s h]
    have hesc : escChar ∉ pyStrip (collapseNL (replCR (replCRLF s))) := by
      intro hmem
      have h1 := mem_pyStrip _ _ hmem
      rcases (collapse_mem (replCR (replCRLF s)).length _ le_rfl).1 _ h1 with h2 | h2
      · rcases mem_replCR _ _ h2 with h3 | h3
        · rcases mem_replCRLF _ _ h3 with h4 | h4
          · exact h h4
          · exact absurd h4 (by decide)
        · exact absurd h3 (by decide)
      · exact absurd h2 (by decide)
    have hcr : '\r' ∉ pyStrip (collapseNL (replCR (replCRLF s))) := by
      intro hmem
      have h1 := mem_pyStrip _ _ hmem
      rcases (collapse_mem (replCR (replCRLF s)).length _ le_rfl).1 _ h1 with h2 | h2
      · exact no_cr_replCR _ h2
      · exact absurd h2 (by decide)
    have hnt : containsSub tripleNL (pyStrip (collapseNL (replCR (replCRLF s)))) = false := by
      cases hq : containsSub tripleNL (pyStrip (collapseNL (replCR (replCRLF s))))
      · rfl
      · exfalso
        have h1 := containsSub_of_pyStrip _ _ hq
        have h2 := (collapse_no_triple (replCR (replCRLF s)).length _ le_rfl).1
        rw [h1] at h2
        exact absurd h2 (by decide)
    rw [htv]
    by_cases htnil : pyStrip (collapseNL (replCR (replCRLF s))) = []
    · rw [htnil]
      rfl
    · rw [sanitize_traceback, if_neg htnil, ansiStrip_of_no_esc _ hesc,
        replCRLF_of_no_cr _ hcr, replCR_of_no_cr _ hcr,
        collapseNL_id (pyStrip (collapseNL (replCR (replCRLF s)))).length _ le_rfl hnt]
      exact pyStrip_pyStrip _

/-- C3 witness: instantiating the idempotence theorem at a concrete
escape-free string with mixed line endings, blank runs and padding. -/
theorem sanitize_idempotent_of_no_esc_witness :
    escChar ∉ ("  a\r\n\n\n\nb ".toList)
    ∧ sanitize_traceback (sanitize_traceback ("  a\r\n\n\n\nb ".toList))
        = sanitize_traceback ("  a\r\n\n\n\nb ".toList) :=
  ⟨by decide, sanitize_idempotent_of_no_esc ("  a\r\n\n\n\nb ".toList) (by decide)⟩


theorem mem_of_getLastOpt {α} : ∀ (l : List α) (a : α), l.getLast? = some a → a ∈ l := by
  intro l
  induction l with
  | nil => intro a h; simp [List.getLast?] at h
  | cons x t ih =>
    intro a h
    cases t with
    | nil => simp [List.getLast?] at h; simp [h]
    | cons y u =>
      rw [List.getLast?_cons_cons] at h
      exact List.mem_cons_of_mem x (ih a h)

theorem digitsFoldl_nonneg :
    ∀ (ds : List Char) (a : Int), 0 ≤ a →
      0 ≤ ds.foldl (fun a c => 10 * a + ((c.toNat - '0'.toNat : Nat) : Int)) a := by
  intro ds
  induction ds with
  | nil => intro a ha; simpa using ha
  | cons c t ih =>
    intro a ha
    apply ih
    show 0 ≤ 10 * a + ((c.toNat - '0'.toNat : Nat) : Int)
    have hk : (0 : Int) ≤ ((c.toNat - '0'.toNat : Nat) : Int) := Int.natCast_nonneg _
    omega

theorem digitsToInt_nonneg (ds : List Char) : 0 ≤ digitsToInt ds :=
  digitsFoldl_nonneg ds 0 le_rfl

theorem lineNumTail_nonneg (l : List Char) (n : Int) (r : List Char)
    (h : lineNumTail l = some (n, r)) : 0 ≤ n := by
  simp only [lineNumTail] at h
  split at h
  · exact absurd h (by simp)
  · split at h
    · exact absurd h (by simp)
    · simp only [Option.some.injEq, Prod.mk.injEq] at h
      rw [← h.1]
      exact digitsToInt_nonneg _

theorem lineFindAux_nonneg (f : Nat) (l : List Char) :
    ∀ n : Int, n ∈ lineFindAux f l → 0 ≤ n := by
  induction f, l using lineFindAux.induct with
  | case1 l => intro n h; simp [lineFindAux] at h
  | case2 f => intro n h; simp [lineFindAux] at h
  | case3 f rest m r hm ih =>
    intro n h
    rw [show lineFindAux (f + 1) ('l' :: 'i' :: 'n' :: 'e' :: rest)
          = m :: lineFindAux f r by rw [lineFindAux, hm]] at h
    rw [List.mem_cons] at h
    rcases h with h | h
    · subst h; exact lineNumTail_nonneg rest n r hm
    · exact ih n h
  | case4 f rest hm ih =>
    intro n h
    rw [show lineFindAux (f + 1) ('l' :: 'i' :: 'n' :: 'e' :: rest)
          = lineFindAux f ('i' :: 'n' :: 'e' :: rest) by rw [lineFindAux, hm]] at h
    exact ih n h
  | case5 f c rest hne ih =>
    intro n h
    have heq : lineFindAux (f + 1) (c :: rest) = lineFindAux f rest := by
      rw [lineFindAux.eq_def]
      split
      next => omega
      next => simp_all
      next heq2 =>
        injection heq2 with hc hr
        exact (hne _ hc hr).elim
      next =>
        rename_i f2 hd rst hno hf hcons
        obtain rfl : f2 = f := by omega
        obtain ⟨rfl, rfl⟩ : c = hd ∧ rest = rst := by
          injection hcons with h1 h2; exact ⟨h1, h2⟩
        rfl
    rw [heq] at h
    exact ih n h

/-- C4: for the round-trip scenario text ending in
`ZeroDivisionError: division by zero` preceded by the frame line
`File "calc.py", line 10, in divide`, decoding extracts
`error_type="ZeroDivisionError"`, `file_name="calc.py"`,
`line_number=10`, `function_name="divide"`, and classifies
`category="Arithmetic Errors"`. -/
theorem roundtrip_zero_division_scenario :
    (okValueD (decode_traceback (.pystr zeroDivText) true)).error_type
        = ("ZeroDivisionError".toList)
    ∧ (okValueD (decode_traceback (.pystr zeroDivText) true)).file_name
        = some ("calc.py".toList)
    ∧ (okValueD (decode_traceback (.pystr zeroDivText) true)).line_number = some 10
    ∧ (okValueD (decode_traceback (.pystr zeroDivText) true)).function_name
        = some ("divide".toList)
    ∧ (okValueD (decode_traceback (.pystr zeroDivText) true)).category
        = ("Arithmetic Errors".toList) := by
  decide

/-- C2 (code bug): `extract_error_type` and therefore `decode_traceback`
raise `IndexError` on the input `":x"`, whose last line starts with a
colon: the claim that every extraction function and `decode_traceback`
never raise fails on the code. -/
theorem extract_error_type_raises_on_colon_line :
    extract_error_type (.pystr (":x".toList)) = .error .indexError
    ∧ decode_traceback (.pystr (":x".toList)) true = .error .indexError := by
  decide

/-- C7 (code bug): for a text whose only qualifying frame line names the
module-level marker `<module>`, `extract_function_name` returns absence
(the identifier pattern cannot match the angle brackets, so the branch
returning `main script` is unreachable), while an ordinary identifier in
the same position is returned. -/
theorem extract_function_name_module_returns_none :
    extract_function_name_str ("  File \"t.py\", line 1, in <module>".toList) = none
    ∧ extract_function_name_str ("  File \"t.py\", line 1, in divide".toList)
        = some ("divide".toList) := by
  decide

/-- C1 (code bug): `safe_run` propagates exceptions to its caller.  With
an `Exception`-class fault whose rendered traceback's last line starts
with `:`, the handler's own call to `decode_traceback` raises
`IndexError`, which escapes `safe_run`; a `SystemExit`-class fault is not
caught by `except Exception` at all and escapes unchanged. -/
theorem safe_run_handler_crash_propagates :
    safe_run (.pystr ("raise ValueError(chr(10) + chr(58))".toList))
        (.raised [] true colonTailTb) true = .error .indexError
    ∧ safe_run (.pystr ("raise SystemExit".toList))
        (.raised [] false ("SystemExit\n".toList)) true
        = .error (.uncaught ("SystemExit\n".toList)) := by
  decide

/-- C6 (counterexample): on the input `"line 0"`, `extract_line_number`
returns the value `0`, which is not strictly positive. -/
theorem extract_line_number_zero_counterexample :
    extract_line_number_str ("line 0".toList) = some 0 ∧ ¬ (0 : Int) < 0 := by
  decide

/-- C3 (counterexample): the sanitizer is not idempotent.  On the input
`"\x1b\x1bAA"` one pass yields `"\x1bA"` (deleting the inner escape glues
a new one together), and a second pass yields `""`. -/
theorem sanitize_not_idempotent_on_ansi :
    sanitize_traceback (sanitize_traceback ansiCounterexample)
      ≠ sanitize_traceback ansiCounterexample := by
  decide

/-- C9: on empty-string input, `decode_traceback` returns the fixed
invalid-input result without running the pipeline: `success=false`,
`tags=["invalid_input"]`, `error_type="InvalidInput"`,
`category="Input Error"`, all location fields absent, and an empty
sanitized traceback. -/
theorem decode_empty_string_invalid_input (b : Bool) :
    decode_traceback (.pystr []) b = .ok (invalidInputResult b)
    ∧ (invalidInputResult b).success = false
    ∧ (invalidInputResult b).tags = [("invalid_input".toList)]
    ∧ (invalidInputResult b).error_type = ("InvalidInput".toList)
    ∧ (invalidInputResult b).category = ("Input Error".toList)
    ∧ (invalidInputResult b).line_number = none
    ∧ (invalidInputResult b).file_name = none
    ∧ (invalidInputResult b).function_name = none
    ∧ (invalidInputResult b).raw_traceback = [] := by
  cases b <;> exact ⟨rfl, rfl, rfl, rfl, rfl, rfl, rfl, rfl, rfl⟩

/-- C5: `extract_line_number` returns the integer of the last occurrence
of the pattern `line <digits>` in text order, and absence when the text
contains no occurrence. -/
theorem extract_line_number_last_match (s : List Char) :
    extract_line_number_str s = (lineMatches s).getLast?
    ∧ (lineMatches s = [] → extract_line_number_str s = none) := by
  constructor
  · by_cases h : s.isEmpty
    · have hnil : s = [] := by simpa using h
      subst hnil
      simp [extract_line_number_str, lineMatches, lineFindAux]
    · simp [extract_line_number_str, h]
  · intro h
    by_cases hs : s.isEmpty
    · simp [extract_line_number_str, hs]
    · simp [extract_line_number_str, hs, h]

/-- C5 witness: on `"line 30, line 5, line 10"` the extractor returns the
last occurrence `10` (neither the largest `30` nor the smallest `5`), and
on a text with no occurrence it returns absence. -/
theorem extract_line_number_last_match_witness :
    extract_line_number_str ("line 30, line 5, line 10".toList) = some 10
    ∧ extract_line_number_str ("no occurrences here".toList) = none :=
  ⟨((extract_line_number_last_match ("line 30, line 5, line 10".toList)).1).trans (by decide),
    (extract_line_number_last_match ("no occurrences here".toList)).2 (by decide)⟩

/-- C6 (amended): whenever `extract_line_number` returns a value, that
value is a nonnegative integer (it can be `0`, for example on the text
`"line 0"`, so it is not always strictly positive). -/
theorem extract_line_number_nonneg (s : List Char) (n : Int)
    (h : extract_line_number_str s = some n) : 0 ≤ n := by
  unfold extract_line_number_str at h
  split_ifs at h
  exact lineFindAux_nonneg _ _ n (mem_of_getLastOpt _ n h)

/-- C6 witness: instantiating the nonnegativity theorem at `"line 7"`. -/
theorem extract_line_number_nonneg_witness :
    extract_line_number_str ("line 7".toList) = some 7 ∧ (0 : Int) ≤ 7 :=
  ⟨by decide, extract_line_number_nonneg ("line 7".toList) 7 (by decide)⟩

/-- C8: `categorize_error` returns `Unknown` exactly when the argument is
absent or empty; a nonempty type present in no category list yields
`Other`; and every type listed in the fixed table yields its category
label. -/
theorem categorize_error_spec (et : Option (List Char)) :
    (categorize_error et = ("Unknown".toList) ↔ (et = none ∨ et = some []))
    ∧ (∀ s, et = some s → s ≠ [] →
        (∀ p ∈ categoriesTable, s ∉ p.2) → categorize_error et = ("Other".toList))
    ∧ (∀ p ∈ categoriesTable, ∀ t ∈ p.2, categorize_error (some t) = p.1) := by
  refine ⟨?_, ?_, ?_⟩
  · cases et with
    | none => simp [categorize_error]
    | some s =>
      by_cases hs : s = []
      · subst hs; simp [categorize_error]
      · constructor
        · intro hcat
          exfalso
          rw [categorize_error] at hcat
          rw [if_neg (by simpa using hs)] at hcat
          rcases hfind : categoriesTable.find? (fun p => p.2.contains s) with _ | p
          · rw [hfind] at hcat
            exact absurd hcat (by decide)
          · rw [hfind] at hcat
            have hp := List.mem_of_find?_eq_some hfind
            have : ∀ q ∈ categoriesTable, q.1 ≠ ("Unknown".toList) := by decide
            exact this p hp hcat
        · intro hor
          rcases hor with hor | hor
          · exact absurd hor (by simp)
          · exact absurd (Option.some.inj hor) hs
  · intro s hset hs hnot
    subst hset
    rw [categorize_error, if_neg (by simpa using hs)]
    have hfind : categoriesTable.find? (fun p => p.2.contains s) = none := by
      rw [List.find?_eq_none]
      intro p hp
      simpa using fun hmem => hnot p hp hmem
    rw [hfind]
  · decide

/-- C8 witness: a mapped type, an unmapped nonempty type, and the absent
case, each by instantiating the classifier theorem. -/
theorem categorize_error_spec_witness :
    categorize_error (some ("ZeroDivisionError".toList)) = ("Arithmetic Errors".toList)
    ∧ categorize_error (some ("FlurbError".toList)) = ("Other".toList)
    ∧ categorize_error none = ("Unknown".toList) :=
  ⟨(categorize_error_spec (some ("ZeroDivisionError".toList))).2.2
      (("Arithmetic Errors".toList),
        [("ZeroDivisionError".toList), ("OverflowError".toList), ("FloatingPointError".toList)])
      (by decide) ("ZeroDivisionError".toList) (by decide),
    (categorize_error_spec (some ("FlurbError".toList))).2.1 _ rfl (by decide) (by decide),
    (categorize_error_spec none).1.mpr (Or.inl rfl)⟩

theorem except_bind_ok {eps alpha beta : Type} (a : alpha) (f : alpha → Except eps beta) :
    ((Except.ok a : Except eps alpha) >>= f) = f a := rfl

theorem except_bind_error {eps alpha beta : Type} (e : eps) (f : alpha → Except eps beta) :
    ((Except.error e : Except eps alpha) >>= f) = .error e := rfl

theorem except_pure {eps alpha : Type} (a : alpha) :
    (pure a : Except eps alpha) = .ok a := rfl

theorem truncate_long_message_length (m : List Char) :
    (truncate_long_message m 200).length ≤ 200 := by
  unfold truncate_long_message
  split_ifs with h
  · by_cases hm : m.length ≤ 200
    · exact hm
    · have : m = [] := by
        cases he : m.isEmpty
        · rw [he] at h
          simp at h
          exact absurd h hm
        · simpa using he
      simp [this]
  · simp only [List.length_append, List.length_take]
    have : ("...".toList).length = 3 := by decide
    omega

/-- C10: the `original_message` field of every result `decode_traceback`
returns is at most 200 characters; a message longer than 200 characters
is truncated by `truncate_long_message` to its first 197 characters
followed by `...`, and a message of at most 200 characters passes through
unchanged. -/
theorem original_message_truncated (v : PyVal) (b : Bool) (r : DecodeResult)
    (h : decode_traceback v b = .ok r) :
    r.original_message.length ≤ 200
    ∧ ∀ m : List Char,
        (m.length ≤ 200 → truncate_long_message m 200 = m)
        ∧ (200 < m.length →
            truncate_long_message m 200 = m.take 197 ++ ("...".toList)) := by
  constructor
  · by_cases hv : (!pyTruthy v || !isStrVal v) = true
    · rw [decode_traceback.eq_def, if_pos hv] at h
      obtain rfl : invalidInputResult b = r := Except.ok.inj h
      show ("No traceback provided".toList).length ≤ 200
      decide
    · cases v with
      | pynone => exact absurd hv (by simp [pyTruthy, isStrVal])
      | pyint n => exact absurd hv (by simp [isStrVal])
      | pybool bb => exact absurd hv (by simp [isStrVal])
      | pystr s =>
        rw [decode_traceback.eq_def, if_neg hv] at h
        dsimp only at h
        rw [is_syntax_error_str] at h
        rcases h1 : extract_error_type_str (sanitize_traceback s) with e | et
        · rw [h1] at h
          simp only [except_bind_error] at h
          exact absurd h (by simp)
        · rw [h1] at h
          rcases et with _ | t
          all_goals
            simp only [except_bind_ok, except_bind_error, except_pure,
              Except.ok.injEq] at h
          all_goals
            rw [← h]
          all_goals
            exact truncate_long_message_length _
  · intro m
    constructor
    · intro hm
      unfold truncate_long_message
      rw [if_pos]
      simp [hm]
    · intro hm
      unfold truncate_long_message
      have h1 : m.isEmpty = false := by
        cases he : m.isEmpty
        · rfl
        · have hnil : m = [] := by simpa using he
          rw [hnil] at hm
          simp at hm
      have h2 : decide (m.length ≤ 200) = false := decide_eq_false (by omega)
      rw [if_neg (by simp [h1, h2])]

/-- C10 witness: instantiating the truncation theorem at a short concrete
traceback, whose decode succeeds. -/
theorem original_message_truncated_witness :
    (okValueD (decode_traceback (.pystr ("ValueError: boom".toList)) true)).original_message.length
      ≤ 200 :=
  (original_message_truncated (.pystr ("ValueError: boom".toList)) true
    (okValueD (decode_traceback (.pystr ("ValueError: boom".toList)) true)) (by decide)).1

end PyDecode
